import Mathlib

/-!
Verification of the `timeseries` stock-data service layer.

The repository ships a React/TypeScript frontend (`frontend/src/services/api.ts`,
`frontend/src/hooks/useStockData.ts`, the `QueryForm`, `DataInputForm` and
`StockDashboard` components) which is embedded here directly from its source.
The Python backend (interval resolver, data point validator, query planner,
store adapter, result assembler, health reporter) is not part of the delivered
sources; those components are modelled from the specification, as flagged in
the doc comment of each such definition.

Conventions of the embedding: instants and durations are integers (seconds
since the Unix epoch / whole seconds); prices are rationals (the code's
float64 values pass through aggregation unchanged — only selection and
equality are ever used on them); volumes are integers.
-/

deriving instance DecidableEq for Except

namespace Timeseries

/-- Modelled from the spec: the service error taxonomy (§7) restricted to the
kinds the verified contracts mention: `InvalidObservation` (bad field on
write), `InvalidInterval` (unknown token, carrying the offending token),
`InvalidTimeRange` (start after end). -/
inductive StockError where
  | invalidObservation (msg : String)
  | invalidInterval (token : String)
  | invalidTimeRange
  deriving DecidableEq, Repr

/-! ## Interval resolver (§4.1) -/

/-- Modelled from the spec: the fixed mapping table of the interval resolver —
the eleven case-sensitive interval tokens (§6) paired with their durations in
seconds. -/
def intervalTable : List (String × Int) :=
  [("1s", 1), ("5s", 5), ("10s", 10), ("30s", 30),
   ("1m", 60), ("5m", 300), ("15m", 900), ("30m", 1800),
   ("1h", 3600), ("4h", 14400), ("1d", 86400)]

/-- The interval token vocabulary, as listed in §6 of the spec. -/
def intervalVocabulary : List String :=
  ["1s", "5s", "10s", "30s", "1m", "5m", "15m", "30m", "1h", "4h", "1d"]

/-- Modelled from the spec: `resolve(token) -> duration | fails(InvalidInterval)`;
exact-match lookup in the fixed mapping table, unknown or empty token fails
with `InvalidInterval` naming the offending token (§4.1). -/
def resolve (token : String) : Except StockError Int :=
  match intervalTable.lookup token with
  | some d => .ok d
  | none => .error (.invalidInterval token)

/-- The interval dropdown of `QueryForm` (frontend/src/components/QueryForm.tsx):
the `value` field of each entry of the `intervals` array, in source order. -/
def queryFormIntervalValues : List String :=
  ["1s", "5s", "10s", "30s", "1m", "5m", "15m", "30m", "1h", "4h", "1d"]

theorem resolve_mem_vocabulary (t : String) (h : t ∈ intervalVocabulary) :
    ∃ d : Int, 0 < d ∧ resolve t = .ok d := by
  fin_cases h <;> exact ⟨_, by norm_num, rfl⟩

theorem resolve_not_mem_vocabulary (t : String) (h : t ∉ intervalVocabulary) :
    resolve t = .error (.invalidInterval t) := by
  simp only [intervalVocabulary, List.mem_cons, List.not_mem_nil, or_false, not_or] at h
  obtain ⟨h1, h5, h10, h30, hm1, hm5, hm15, hm30, hh1, hh4, hd1⟩ := h
  have e1 : (t == "1s") = false := by simp [h1]
  have e5 : (t == "5s") = false := by simp [h5]
  have e10 : (t == "10s") = false := by simp [h10]
  have e30 : (t == "30s") = false := by simp [h30]
  have em1 : (t == "1m") = false := by simp [hm1]
  have em5 : (t == "5m") = false := by simp [hm5]
  have em15 : (t == "15m") = false := by simp [hm15]
  have em30 : (t == "30m") = false := by simp [hm30]
  have eh1 : (t == "1h") = false := by simp [hh1]
  have eh4 : (t == "4h") = false := by simp [hh4]
  have ed1 : (t == "1d") = false := by simp [hd1]
  simp [resolve, intervalTable, List.lookup, e1, e5, e10, e30,
    em1, em5, em15, em30, eh1, eh4, ed1]

/-! ## Timestamps and the data point validator (§4.2) -/

/-- Numeric value of a decimal digit character, or failure. -/
def digitValue (c : Char) : Option Nat :=
  if c.isDigit then some (c.toNat - 48) else none

/-- Two-digit decimal field. -/
def twoDigits (a b : Char) : Option Nat := do
  pure ((← digitValue a) * 10 + (← digitValue b))

/-- Four-digit decimal field. -/
def fourDigits (a b c d : Char) : Option Nat := do
  pure ((← digitValue a) * 1000 + (← digitValue b) * 100 +
        (← digitValue c) * 10 + (← digitValue d))

def isLeapYear (y : Nat) : Bool :=
  y % 4 == 0 && (y % 100 != 0 || y % 400 == 0)

def daysInMonth (y m : Nat) : Nat :=
  if m = 2 then (if isLeapYear y then 29 else 28)
  else if m = 4 ∨ m = 6 ∨ m = 9 ∨ m = 11 then 30
  else 31

/-- Days from the Unix epoch to the civil date `y-m-d` (proleptic Gregorian,
standard era-based conversion). -/
def daysFromCivil (y m d : Nat) : Int :=
  let yAdj := if m ≤ 2 then y - 1 else y
  let era := yAdj / 400
  let yoe := yAdj % 400
  let mp := if 2 < m then m - 3 else m + 9
  let doy := (153 * mp + 2) / 5 + (d - 1)
  let doe := yoe * 365 + yoe / 4 - yoe / 100 + doy
  (era * 146097 + doe : Int) - 719468

/-- UTC offset suffix of an ISO-8601 instant: empty (naive, taken as UTC),
`Z`, or `±HH:MM`. Returns the offset in seconds. -/
def offsetPart : List Char → Option Int
  | [] => some 0
  | ['Z'] => some 0
  | [c, a, b, ':', x, y] => do
    let hh ← twoDigits a b
    let mm ← twoDigits x y
    if hh ≤ 23 ∧ mm ≤ 59 then
      if c = '+' then some ((hh * 3600 + mm * 60 : Nat) : Int)
      else if c = '-' then some (-((hh * 3600 + mm * 60 : Nat) : Int))
      else none
    else none
  | _ => none

/-- Optional fractional-second field (milliseconds, truncated) followed by the
UTC offset suffix. -/
def fracThenOffset : List Char → Option Int
  | '.' :: a :: b :: c :: rest => do
    let _ ← twoDigits a b
    let _ ← digitValue c
    offsetPart rest
  | rest => offsetPart rest

/-- Modelled from the spec: "`timestamp` parses as a valid instant ...
timestamp normalized to UTC" (§4.2). The backend parser is not in the
delivered sources; this model accepts ISO-8601 instants of the form
`YYYY-MM-DDTHH:MM:SS[.mmm][Z|±HH:MM]` with calendar-valid fields and returns
the UTC instant in seconds since the Unix epoch (local time minus offset). -/
def parseInstant (s : String) : Option Int :=
  match s.toList with
  | y1 :: y2 :: y3 :: y4 :: '-' :: m1 :: m2 :: '-' :: d1 :: d2 :: 'T' ::
      h1 :: h2 :: ':' :: n1 :: n2 :: ':' :: s1 :: s2 :: rest => do
    let y ← fourDigits y1 y2 y3 y4
    let mo ← twoDigits m1 m2
    let dy ← twoDigits d1 d2
    let hh ← twoDigits h1 h2
    let mi ← twoDigits n1 n2
    let ss ← twoDigits s1 s2
    if 1 ≤ mo ∧ mo ≤ 12 ∧ 1 ≤ dy ∧ dy ≤ daysInMonth y mo ∧
        hh ≤ 23 ∧ mi ≤ 59 ∧ ss ≤ 59 then
      let off ← fracThenOffset rest
      some (daysFromCivil y mo dy * 86400 + ((hh * 3600 + mi * 60 + ss : Nat) : Int) - off)
    else none
  | _ => none

/-- Drop whitespace from both ends of a character list. -/
def trimChars (cs : List Char) : List Char :=
  ((cs.dropWhile Char.isWhitespace).reverse.dropWhile Char.isWhitespace).reverse

/-- Modelled from the spec: symbol normalization for storage — "symbol
non-empty, trimmed, uppercased for storage consistency" (§4.2). -/
def normalizeSymbol (s : String) : String :=
  String.mk ((trimChars s.toList).map Char.toUpper)

/-- An incoming observation as submitted by a caller: `{symbol, price, volume,
timestamp}` with the timestamp still a string (§3). Prices are embedded as
rationals. -/
structure Observation where
  symbol : String
  price : Rat
  volume : Int
  timestamp : String
  deriving DecidableEq, Repr

/-- A validated, normalized observation: symbol trimmed and uppercased,
timestamp resolved to a UTC instant (§4.2). -/
structure NormalizedObservation where
  symbol : String
  price : Rat
  volume : Int
  timestamp : Int
  deriving DecidableEq, Repr

/-- Modelled from the spec: `validate(observation) -> fails(InvalidObservation)`
(§4.2). Rules, all enforced before any write is attempted: symbol non-empty
(after trimming), `price > 0`, `volume >= 0`, timestamp parses as a valid
instant; on success returns the normalized copy. Pure — no side effects. -/
def validate (o : Observation) : Except StockError NormalizedObservation :=
  if normalizeSymbol o.symbol = "" then
    .error (.invalidObservation "symbol must be a non-empty string")
  else if o.price ≤ 0 then .error (.invalidObservation "price must be positive")
  else if o.volume < 0 then .error (.invalidObservation "volume must be non-negative")
  else
    match parseInstant o.timestamp with
    | some t =>
      .ok { symbol := normalizeSymbol o.symbol, price := o.price, volume := o.volume,
            timestamp := t }
    | none => .error (.invalidObservation "timestamp must be a valid instant")

/-! ## Query planner (§4.3) -/

/-- The system-wide default lookback: 7 days, in seconds (§4.3 step 3). -/
def defaultLookbackSeconds : Int := 7 * 86400

/-- A store-agnostic query descriptor: symbol filter, resolved window and
bucket duration (§3). The spec's `window.end` field is called `stop` here
because `end` is a reserved word. Invariant established by the planner:
`start ≤ stop`. -/
structure QueryDescriptor where
  symbol : String
  start : Int
  stop : Int
  bucketDuration : Int
  deriving DecidableEq, Repr

/-- Modelled from the spec: the query planner (§4.3). Resolves the interval
(propagating its failure unchanged), defaults `end` to `now()`, defaults
`start` to `end - 7 days`, fails with `InvalidTimeRange` if `start > end`,
and otherwise produces the descriptor. `now` is passed explicitly. -/
def plan (symbol : String) (startOpt endOpt : Option Int) (intervalToken : String)
    (now : Int) : Except StockError QueryDescriptor :=
  match resolve intervalToken with
  | .error err => .error err
  | .ok bucket =>
    let e := endOpt.getD now
    let s := startOpt.getD (e - defaultLookbackSeconds)
    if s > e then .error .invalidTimeRange
    else .ok { symbol := symbol, start := s, stop := e, bucketDuration := bucket }

/-! ## Store adapter: bucketed query (§4.4) -/

/-- One point of a result series: `{timestamp, price, volume}` (§3). -/
structure SeriesPoint where
  timestamp : Int
  price : Rat
  volume : Int
  deriving DecidableEq, Repr

/-- Start of the epoch-aligned bucket of duration `d` containing instant `t`
(floor division, so negative instants land in the bucket below). -/
def bucketStart (d t : Int) : Int := d * Int.fdiv t d

/-- Of two observations, the one later in time; the right argument wins ties
(matching write order when folded left over the stored rows). -/
def laterByTime (a b : NormalizedObservation) : NormalizedObservation :=
  if a.timestamp ≤ b.timestamp then b else a

/-- The last-in-time observation among `a :: l`. -/
def lastObservation (a : NormalizedObservation) (l : List NormalizedObservation) :
    NormalizedObservation :=
  l.foldl laterByTime a

/-- The stored rows that a descriptor's symbol filter and window select. -/
def windowRows (desc : QueryDescriptor) (rows : List NormalizedObservation) :
    List NormalizedObservation :=
  rows.filter (fun o =>
    decide (o.symbol = desc.symbol ∧ desc.start ≤ o.timestamp ∧ o.timestamp ≤ desc.stop))

/-- The selected rows falling in the bucket starting at `b`. -/
def bucketRows (desc : QueryDescriptor) (rows : List NormalizedObservation) (b : Int) :
    List NormalizedObservation :=
  (windowRows desc rows).filter (fun o =>
    decide (bucketStart desc.bucketDuration o.timestamp = b))

/-- The aggregate point of one bucket: last-observation-in-bucket for price,
sum of volumes (§4.4). The `[]` case is never reached by `queryStore`, which
only builds points for buckets that contain an observation. -/
def bucketPoint (b : Int) (l : List NormalizedObservation) : SeriesPoint :=
  { timestamp := b
    price :=
      match l with
      | [] => 0
      | o :: rest => (lastObservation o rest).price
    volume := (l.map NormalizedObservation.volume).sum }

/-- Modelled from the spec: the store adapter's `query(descriptor)` bucketing
and aggregation policy (§4.4) — the backend adapter is not in the delivered
sources. Selects the rows matching the descriptor's symbol and window, and
returns exactly one point per non-empty bucket of `bucketDuration`, with
last-observation-in-bucket price and summed volume; buckets with zero
observations are omitted (no zero-filling). -/
def queryStore (desc : QueryDescriptor) (rows : List NormalizedObservation) :
    List SeriesPoint :=
  let keys :=
    ((windowRows desc rows).map (fun o => bucketStart desc.bucketDuration o.timestamp)).dedup
  keys.map (fun b => bucketPoint b (bucketRows desc rows b))

theorem laterByTime_eq_or (a b : NormalizedObservation) :
    laterByTime a b = a ∨ laterByTime a b = b := by
  unfold laterByTime
  split <;> simp

theorem le_laterByTime_left (a b : NormalizedObservation) :
    a.timestamp ≤ (laterByTime a b).timestamp := by
  unfold laterByTime
  split <;> omega

theorem le_laterByTime_right (a b : NormalizedObservation) :
    b.timestamp ≤ (laterByTime a b).timestamp := by
  unfold laterByTime
  split <;> omega

theorem lastObservation_mem :
    ∀ (l : List NormalizedObservation) (a : NormalizedObservation),
      lastObservation a l ∈ a :: l := by
  intro l
  induction l with
  | nil => intro a; simp [lastObservation]
  | cons y ys ih =>
    intro a
    have step : lastObservation a (y :: ys) = lastObservation (laterByTime a y) ys := rfl
    rw [step]
    have hmem := ih (laterByTime a y)
    simp only [List.mem_cons] at hmem ⊢
    rcases laterByTime_eq_or a y with h | h <;> rcases hmem with hm | hm <;> simp_all

theorem le_lastObservation :
    ∀ (l : List NormalizedObservation) (a o : NormalizedObservation),
      o ∈ a :: l → o.timestamp ≤ (lastObservation a l).timestamp := by
  intro l
  induction l with
  | nil =>
    intro a o h
    simp only [List.mem_cons, List.not_mem_nil, or_false] at h
    subst h
    exact le_refl _
  | cons y ys ih =>
    intro a o h
    have step : lastObservation a (y :: ys) = lastObservation (laterByTime a y) ys := rfl
    rw [step]
    have hhead := ih (laterByTime a y) (laterByTime a y) (List.mem_cons_self _ _)
    simp only [List.mem_cons] at h
    rcases h with h | h | h
    · subst h
      exact le_trans (le_laterByTime_left o y) hhead
    · subst h
      exact le_trans (le_laterByTime_right a o) hhead
    · exact ih (laterByTime a y) o (List.mem_cons_of_mem _ h)

theorem queryStore_timestamps (desc : QueryDescriptor) (rows : List NormalizedObservation) :
    (queryStore desc rows).map SeriesPoint.timestamp =
      ((windowRows desc rows).map (fun o => bucketStart desc.bucketDuration o.timestamp)).dedup := by
  simp only [queryStore, List.map_map]
  have : (SeriesPoint.timestamp ∘ fun b => bucketPoint b (bucketRows desc rows b)) =
      fun b => b := by
    funext b
    rfl
  rw [this, List.map_id']

/-! ## Result assembler (§4.5) -/

/-- Timestamp order on series points, used for the assembler's defensive
sort. -/
def pointLE (a b : SeriesPoint) : Prop := a.timestamp ≤ b.timestamp

instance : DecidableRel pointLE := fun a b => Int.decLe a.timestamp b.timestamp

instance : IsTotal SeriesPoint pointLE :=
  ⟨fun a b => Int.le_total a.timestamp b.timestamp⟩

instance : IsTrans SeriesPoint pointLE :=
  ⟨fun _ _ _ hab hbc => le_trans hab hbc⟩

/-- Collapse exact-timestamp collisions between the pending point `p` and a
following timestamp-sorted run: merge `p` into an adjacent point with the same
timestamp (its price wins, volumes add), emit `p` otherwise. -/
def collapseAux (p : SeriesPoint) : List SeriesPoint → List SeriesPoint
  | [] => [p]
  | q :: rest =>
    if p.timestamp = q.timestamp then
      collapseAux { q with volume := p.volume + q.volume } rest
    else
      p :: collapseAux q rest

/-- Collapse exact-timestamp collisions in a timestamp-sorted list:
last-wins price, summed volume (§4.5, same rule as the §4.3 bucket policy). -/
def collapse : List SeriesPoint → List SeriesPoint
  | [] => []
  | p :: rest => collapseAux p rest

/-- The response shape: points, total count, echoed window and bucket
duration (§3 `SeriesResult`; the `time_range`/`interval` echo of
`StockDataResponse` in frontend/src/types/stock.ts). -/
structure SeriesResult where
  symbol : String
  points : List SeriesPoint
  totalPoints : Nat
  rangeStart : Int
  rangeStop : Int
  bucketDuration : Int
  deriving DecidableEq, Repr

/-- Modelled from the spec: `assemble(descriptor, rawRows) -> SeriesResult`
(§4.5) — the backend assembler is not in the delivered sources. Pure
transformation: sorts rows by timestamp ascending (defensive), deduplicates
exact-timestamp collisions with last-wins price and summed volume, and
populates `totalPoints` and the echoed window/interval. -/
def assemble (desc : QueryDescriptor) (rawRows : List SeriesPoint) : SeriesResult :=
  let pts := collapse (List.insertionSort pointLE rawRows)
  { symbol := desc.symbol
    points := pts
    totalPoints := pts.length
    rangeStart := desc.start
    rangeStop := desc.stop
    bucketDuration := desc.bucketDuration }

theorem timestamp_withVolume (q : SeriesPoint) (v : Int) :
    ({ q with volume := v } : SeriesPoint).timestamp = q.timestamp := rfl

theorem mem_timestamp_collapseAux :
    ∀ (l : List SeriesPoint) (p : SeriesPoint) (t : Int),
      t ∈ (collapseAux p l).map SeriesPoint.timestamp ↔
        t ∈ (p :: l).map SeriesPoint.timestamp := by
  intro l
  induction l with
  | nil => intro p t; simp [collapseAux]
  | cons q rest ih =>
    intro p t
    by_cases h : p.timestamp = q.timestamp
    · rw [show collapseAux p (q :: rest) =
          collapseAux { q with volume := p.volume + q.volume } rest
        from by simp [collapseAux, h]]
      rw [ih { q with volume := p.volume + q.volume } t]
      simp only [List.map_cons, List.mem_cons, timestamp_withVolume, h]
      tauto
    · rw [show collapseAux p (q :: rest) = p :: collapseAux q rest
        from by simp [collapseAux, h]]
      simp only [List.map_cons, List.mem_cons, ih q t]

theorem mem_timestamp_collapse (l : List SeriesPoint) (t : Int) :
    t ∈ (collapse l).map SeriesPoint.timestamp ↔ t ∈ l.map SeriesPoint.timestamp := by
  cases l with
  | nil => simp [collapse]
  | cons p rest => exact mem_timestamp_collapseAux rest p t

theorem collapseAux_pairwise_lt :
    ∀ (l : List SeriesPoint) (p : SeriesPoint), List.Sorted pointLE (p :: l) →
      (collapseAux p l).Pairwise (fun a b => a.timestamp < b.timestamp) := by
  intro l
  induction l with
  | nil => intro p _; simp [collapseAux]
  | cons q rest ih =>
    intro p hs
    by_cases h : p.timestamp = q.timestamp
    · rw [show collapseAux p (q :: rest) =
          collapseAux { q with volume := p.volume + q.volume } rest
        from by simp [collapseAux, h]]
      apply ih
      rw [List.sorted_cons] at hs ⊢
      obtain ⟨-, hs⟩ := hs
      rw [List.sorted_cons] at hs
      exact ⟨hs.1, hs.2⟩
    · rw [show collapseAux p (q :: rest) = p :: collapseAux q rest
        from by simp [collapseAux, h]]
      rw [List.sorted_cons] at hs
      obtain ⟨hp, htail⟩ := hs
      have hpq : p.timestamp < q.timestamp :=
        lt_of_le_of_ne (hp q (List.mem_cons_self _ _)) h
      refine List.Pairwise.cons ?_ (ih q htail)
      intro x hx
      have hts := (mem_timestamp_collapseAux rest q x.timestamp).mp
        (List.mem_map_of_mem _ hx)
      simp only [List.map_cons, List.mem_cons] at hts
      rcases hts with hts | hts
      · omega
      · obtain ⟨z, hz, hzts⟩ := List.mem_map.mp hts
        have hqz : q.timestamp ≤ z.timestamp := (List.sorted_cons.mp htail).1 z hz
        omega

theorem collapse_pairwise_lt (l : List SeriesPoint) (hs : List.Sorted pointLE l) :
    (collapse l).Pairwise (fun a b => a.timestamp < b.timestamp) := by
  cases l with
  | nil => simp [collapse]
  | cons p rest => exact collapseAux_pairwise_lt rest p hs

theorem collapseAux_groups :
    ∀ (l : List SeriesPoint) (p0 : SeriesPoint), List.Sorted pointLE (p0 :: l) →
      ∀ p ∈ collapseAux p0 l,
        p.volume =
          (((p0 :: l).filter (fun x => decide (x.timestamp = p.timestamp))).map
            SeriesPoint.volume).sum ∧
        ∃ w, ((p0 :: l).filter (fun x => decide (x.timestamp = p.timestamp))).getLast? =
            some w ∧ p.price = w.price := by
  intro l
  induction l with
  | nil =>
    intro p0 _ p hp
    simp only [collapseAux, List.mem_cons, List.not_mem_nil, or_false] at hp
    subst hp
    simp
  | cons q rest ih =>
    intro p0 hs p' hp'
    by_cases h : p0.timestamp = q.timestamp
    · have hsTail : List.Sorted pointLE ({ q with volume := p0.volume + q.volume } :: rest) := by
        rw [List.sorted_cons] at hs ⊢
        obtain ⟨-, hs⟩ := hs
        rw [List.sorted_cons] at hs
        exact ⟨hs.1, hs.2⟩
      rw [show collapseAux p0 (q :: rest) =
          collapseAux { q with volume := p0.volume + q.volume } rest
        from by simp [collapseAux, h]] at hp'
      obtain ⟨hvol, w, hw, hprice⟩ :=
        ih { q with volume := p0.volume + q.volume } hsTail p' hp'
      by_cases hts : q.timestamp = p'.timestamp
      · have hp0ts : p0.timestamp = p'.timestamp := by rw [h]; exact hts
        have hf1 : (p0 :: q :: rest).filter (fun x => decide (x.timestamp = p'.timestamp)) =
            p0 :: q :: rest.filter (fun x => decide (x.timestamp = p'.timestamp)) := by
          rw [List.filter_cons_of_pos (by simp [hp0ts]), List.filter_cons_of_pos (by simp [hts])]
        have hf2 : ({ q with volume := p0.volume + q.volume } :: rest).filter
              (fun x => decide (x.timestamp = p'.timestamp)) =
            { q with volume := p0.volume + q.volume } ::
              rest.filter (fun x => decide (x.timestamp = p'.timestamp)) := by
          rw [List.filter_cons_of_pos (by simp [timestamp_withVolume, hts])]
        rw [hf2] at hvol hw
        rw [hf1]
        constructor
        · simp only [List.map_cons, List.sum_cons] at hvol ⊢
          have hq : ({ q with volume := p0.volume + q.volume } : SeriesPoint).volume =
              p0.volume + q.volume := rfl
          omega
        · rcases hrest : rest.filter (fun x => decide (x.timestamp = p'.timestamp)) with _ | ⟨f, fs⟩
          · rw [hrest] at hw
            simp only [List.getLast?_singleton, Option.some.injEq] at hw
            refine ⟨q, ?_, ?_⟩
            · rw [hrest, List.getLast?_cons_cons]
              simp
            · rw [hprice, ← hw]
          · rw [hrest] at hw
            rw [List.getLast?_cons_cons] at hw
            refine ⟨w, ?_, hprice⟩
            rw [hrest, List.getLast?_cons_cons, List.getLast?_cons_cons]
            exact hw
      · have hp0ts : ¬ p0.timestamp = p'.timestamp := by rw [h]; exact hts
        have hf1 : (p0 :: q :: rest).filter (fun x => decide (x.timestamp = p'.timestamp)) =
            rest.filter (fun x => decide (x.timestamp = p'.timestamp)) := by
          rw [List.filter_cons_of_neg (by simp [hp0ts]), List.filter_cons_of_neg (by simp [hts])]
        have hf2 : ({ q with volume := p0.volume + q.volume } :: rest).filter
              (fun x => decide (x.timestamp = p'.timestamp)) =
            rest.filter (fun x => decide (x.timestamp = p'.timestamp)) := by
          rw [List.filter_cons_of_neg (by simp [timestamp_withVolume, hts])]
        rw [hf2] at hvol hw
        rw [hf1]
        exact ⟨hvol, w, hw, hprice⟩
    · rw [show collapseAux p0 (q :: rest) = p0 :: collapseAux q rest
        from by simp [collapseAux, h]] at hp'
      rw [List.sorted_cons] at hs
      obtain ⟨hp0, htail⟩ := hs
      have hp0q : p0.timestamp < q.timestamp :=
        lt_of_le_of_ne (hp0 q (List.mem_cons_self _ _)) h
      rw [List.mem_cons] at hp'
      rcases hp' with hp' | hp'
      · subst hp'
        have hnil : (q :: rest).filter (fun x => decide (x.timestamp = p'.timestamp)) = [] := by
          rw [List.filter_eq_nil_iff]
          intro z hz
          simp only [decide_eq_true_eq]
          rcases List.mem_cons.mp hz with hz | hz
          · subst hz; omega
          · have hqz : q.timestamp ≤ z.timestamp := (List.sorted_cons.mp htail).1 z hz
            omega
        have hf1 : (p' :: q :: rest).filter (fun x => decide (x.timestamp = p'.timestamp)) =
            [p'] := by
          rw [List.filter_cons_of_pos (by simp), hnil]
        rw [hf1]
        simp
      · have hne : ¬ p0.timestamp = p'.timestamp := by
          have hts := (mem_timestamp_collapseAux rest q p'.timestamp).mp
            (List.mem_map_of_mem _ hp')
          simp only [List.map_cons, List.mem_cons] at hts
          rcases hts with hts | hts
          · omega
          · obtain ⟨z, hz, hzts⟩ := List.mem_map.mp hts
            have hqz : q.timestamp ≤ z.timestamp := (List.sorted_cons.mp htail).1 z hz
            omega
        obtain ⟨hvol, w, hw, hprice⟩ := ih q htail p' hp'
        rw [List.filter_cons_of_neg (by simp [hne])]
        exact ⟨hvol, w, hw, hprice⟩

theorem collapse_groups (l : List SeriesPoint) (hs : List.Sorted pointLE l) :
    ∀ p ∈ collapse l,
      p.volume =
        ((l.filter (fun x => decide (x.timestamp = p.timestamp))).map SeriesPoint.volume).sum ∧
      ∃ w, (l.filter (fun x => decide (x.timestamp = p.timestamp))).getLast? = some w ∧
        p.price = w.price := by
  cases l with
  | nil => intro p hp; simp [collapse] at hp
  | cons p0 rest => exact collapseAux_groups rest p0 hs

/-! ## Store adapter: latest(symbol, limit) (§4.4) -/

/-- Timestamp order on normalized observations. -/
def obsLE (a b : NormalizedObservation) : Prop := a.timestamp ≤ b.timestamp

instance : DecidableRel obsLE := fun a b => Int.decLe a.timestamp b.timestamp

instance : IsTotal NormalizedObservation obsLE :=
  ⟨fun a b => Int.le_total a.timestamp b.timestamp⟩

instance : IsTrans NormalizedObservation obsLE :=
  ⟨fun _ _ _ hab hbc => le_trans hab hbc⟩

/-- The observations stored for a symbol, sorted ascending by timestamp. -/
def latestPool (store : List NormalizedObservation) (symbol : String) :
    List NormalizedObservation :=
  List.insertionSort obsLE (store.filter (fun o => decide (o.symbol = symbol)))

/-- Modelled from the spec: the store adapter's `latest(symbol, limit)`
(§4.4) — "results are truncated to `limit` most-recent points when `latest()`
is used". Keeps the final `limit` entries of the ascending-sorted rows of the
symbol. -/
def latest (store : List NormalizedObservation) (symbol : String) (limit : Nat) :
    List NormalizedObservation :=
  (latestPool store symbol).drop ((latestPool store symbol).length - limit)

/-! ## Frontend API client (frontend/src/services/api.ts) -/

/-- `StockDataPoint` of frontend/src/types/stock.ts: `{symbol, price, volume,
timestamp}` with a string timestamp and JS numbers embedded as rationals. -/
structure StockDataPoint where
  symbol : String
  price : Rat
  volume : Rat
  timestamp : String
  deriving DecidableEq, Repr

/-- `StockDataBatch` of frontend/src/types/stock.ts. -/
structure StockDataBatch where
  data_points : List StockDataPoint
  deriving DecidableEq, Repr

/-- `TimeRangeQuery` of frontend/src/types/stock.ts: symbol and interval
required, both time bounds optional. -/
structure TimeRangeQuery where
  symbol : String
  start_time : Option String := none
  end_time : Option String := none
  interval : String
  deriving DecidableEq, Repr

/-- `ApiResponse<T>` of frontend/src/types/stock.ts: optional `data`,
optional `error`. -/
structure ApiResponse (α : Type) where
  data : Option α := none
  error : Option String := none
  deriving DecidableEq, Repr

/-- The failure half of an axios outcome: the optional server detail
(`error.response?.data?.detail`, absent when there was no response body or no
`detail` field) and the error's own `message`. -/
structure HttpFailure where
  detail : Option String
  message : String
  deriving DecidableEq, Repr

/-- The outcome of one transport attempt: the parsed response body, or a
thrown error. -/
inductive TransportOutcome (α : Type) where
  | success (data : α)
  | failure (e : HttpFailure)
  deriving DecidableEq, Repr

/-- The requests the `stockApi` methods construct (method, path and payload),
from frontend/src/services/api.ts. -/
inductive ApiRequest where
  | postData (body : StockDataPoint)
  | postDataBatch (body : StockDataBatch)
  | postQuery (body : TimeRangeQuery)
  | getLatest (symbol : String) (limit : Nat)
  | getSymbols
  | getHealth
  deriving DecidableEq, Repr

/-- JavaScript `a || b` on `error.response?.data?.detail || error.message`:
the detail unless it is absent or falsy (the empty string), else the
message. -/
def jsOrElse (detail : Option String) (message : String) : String :=
  match detail with
  | some s => if s = "" then message else s
  | none => message

/-- The shared try/catch shape of every `stockApi` method: on success wrap the
body in `data`, on a thrown error catch it and wrap `detail || message` in
`error`; never rethrow (totality of this function is the embedding of "the
promise never rejects"). -/
def handleApiCall {α : Type} : TransportOutcome α → ApiResponse α
  | .success d => { data := some d }
  | .failure e => { error := some (jsOrElse e.detail e.message) }

/-- `stockApi.storeDataPoint` (api.ts): POST the data point, catch errors. -/
def storeDataPoint {α : Type} (dataPoint : StockDataPoint)
    (transport : ApiRequest → TransportOutcome α) : ApiResponse α :=
  handleApiCall (transport (.postData dataPoint))

/-- `stockApi.storeDataBatch` (api.ts): POST the batch, catch errors. -/
def storeDataBatch {α : Type} (dataBatch : StockDataBatch)
    (transport : ApiRequest → TransportOutcome α) : ApiResponse α :=
  handleApiCall (transport (.postDataBatch dataBatch))

/-- `stockApi.queryData` (api.ts): POST the time-range query, catch errors. -/
def queryData {α : Type} (query : TimeRangeQuery)
    (transport : ApiRequest → TransportOutcome α) : ApiResponse α :=
  handleApiCall (transport (.postQuery query))

/-- `stockApi.getLatestData` (api.ts): GET `{symbol}/latest?limit=N`; the
`limit` parameter defaults to 100 when omitted. -/
def getLatestData {α : Type} (symbol : String) (limitOpt : Option Nat)
    (transport : ApiRequest → TransportOutcome α) : ApiResponse α :=
  handleApiCall (transport (.getLatest symbol (limitOpt.getD 100)))

/-- `stockApi.getSymbols` (api.ts): GET the symbol list, catch errors. -/
def getSymbols {α : Type} (transport : ApiRequest → TransportOutcome α) :
    ApiResponse α :=
  handleApiCall (transport .getSymbols)

/-- `stockApi.healthCheck` (api.ts): GET the health endpoint, catch errors. -/
def healthCheckApi {α : Type} (transport : ApiRequest → TransportOutcome α) :
    ApiResponse α :=
  handleApiCall (transport .getHealth)

/-- A method's result resolves totally for a request: on HTTP success the
`data` field is set to the body, on any thrown error the `error` field is set
to the server's detail message or the error's message; in both cases an
`ApiResponse` is returned (never a rejection). -/
def ResolvesTotally {α : Type} (transport : ApiRequest → TransportOutcome α)
    (req : ApiRequest) (result : ApiResponse α) : Prop :=
  (∀ d, transport req = .success d → result = { data := some d, error := none }) ∧
  (∀ e, transport req = .failure e →
    result = { data := none, error := some (jsOrElse e.detail e.message) })

/-! ## Health reporter (§4.6) -/

/-- The outcome of one store call: a value, or a store exception (e.g. the
store is unreachable). -/
inductive StoreOutcome (α : Type) where
  | ok (value : α)
  | storeError (message : String)
  deriving DecidableEq, Repr

/-- The store as the health reporter sees it: what `ping()` and
`listSymbols()` would do right now. An unreachable store is the state where
both calls raise. -/
structure StoreState where
  pingResult : StoreOutcome Bool
  symbolsResult : StoreOutcome (List String)
  deriving DecidableEq, Repr

/-- The wire shape of `GET health`: `{status, database_connected,
available_symbols_count}` (§6). -/
structure HealthReport where
  status : String
  database_connected : Bool
  available_symbols_count : Int
  deriving DecidableEq, Repr

/-- The ping probe succeeded: the call returned (did not raise) and reported
a live connection. -/
def pingOk (st : StoreState) : Bool :=
  match st.pingResult with
  | .ok b => b
  | .storeError _ => false

/-- Best-effort symbol count: `-1` when listing symbols raises (§4.6). -/
def symbolCount (st : StoreState) : Int :=
  match st.symbolsResult with
  | .ok syms => (syms.length : Int)
  | .storeError _ => -1

/-- Modelled from the spec: the health reporter `check()` (§4.6, §7) — the
backend reporter is not in the delivered sources. Healthy iff `ping()`
succeeds; symbol count is best-effort; store exceptions are caught, never
propagated, so the reporter is a total function into a structured report. -/
def check (st : StoreState) : HealthReport :=
  { status := if pingOk st then "healthy" else "unhealthy"
    database_connected := pingOk st
    available_symbols_count := symbolCount st }

/-! ## Frontend dashboard wiring
(frontend/src/hooks/useStockData.ts, QueryForm.tsx, StockDashboard.tsx) -/

/-- JavaScript `!!s` for a string: truthy iff non-empty. -/
def truthy (s : String) : Bool := !(s == "")

/-- `useLatestData`'s react-query option `enabled: !!symbol`
(useStockData.ts): the latest-data request is issued only when enabled. -/
def useLatestDataEnabled (symbol : String) : Bool := truthy symbol

/-- `useTimeRangeData`'s react-query option `enabled: !!query.symbol`
(useStockData.ts). -/
def useTimeRangeDataEnabled (q : TimeRangeQuery) : Bool := truthy q.symbol

/-- `QueryForm.handleSubmit` (QueryForm.tsx): invokes `onSubmit(query)` only
when `query.symbol` is truthy; returns the submitted query, or `none` when
the guard suppressed the submission. -/
def queryFormHandleSubmit (q : TimeRangeQuery) : Option TimeRangeQuery :=
  if truthy q.symbol then some q else none

/-- The state `StockDashboard` keeps: the selected symbol and the submitted
query parameters (StockDashboard.tsx `useState` calls). -/
structure DashboardState where
  selectedSymbol : String
  queryParams : Option TimeRangeQuery
  deriving DecidableEq, Repr

/-- The dashboard's initial state: no symbol selected, no query submitted. -/
def initialDashboard : DashboardState :=
  { selectedSymbol := "", queryParams := none }

/-- The user interactions that change the dashboard state. -/
inductive DashboardEvent where
  | selectSymbol (symbol : String)
  | submitQueryForm (q : TimeRangeQuery)

/-- The dashboard's state transitions: `handleSymbolSelect` sets the symbol
and clears the query; a form submission reaches `handleQuerySubmit` (which
stores the query) only through `QueryForm.handleSubmit`'s guard. -/
def dashboardStep (st : DashboardState) : DashboardEvent → DashboardState
  | .selectSymbol s => { selectedSymbol := s, queryParams := none }
  | .submitQueryForm q =>
    match queryFormHandleSubmit q with
    | some accepted => { st with queryParams := some accepted }
    | none => st

/-- The fallback argument `queryParams || { symbol: "", interval: "1m" }` the
dashboard passes to `useTimeRangeData` (StockDashboard.tsx). -/
def fallbackQuery : TimeRangeQuery := { symbol := "", interval := "1m" }

/-- The query `useTimeRangeData` receives from the dashboard. -/
def effectiveTimeRangeQuery (st : DashboardState) : TimeRangeQuery :=
  st.queryParams.getD fallbackQuery

/-- The data requests the dashboard's hooks issue in a state: the latest-data
request (limit defaulted to 100) when `useLatestData` is enabled, and the
time-range query when `useTimeRangeData` is enabled. -/
def issuedRequests (st : DashboardState) : List ApiRequest :=
  (if useLatestDataEnabled st.selectedSymbol then
    [ApiRequest.getLatest st.selectedSymbol 100]
  else []) ++
  (if useTimeRangeDataEnabled (effectiveTimeRangeQuery st) then
    [ApiRequest.postQuery (effectiveTimeRangeQuery st)]
  else [])

/-- The symbol a data request carries, when it has one. -/
def requestSymbol : ApiRequest → Option String
  | .getLatest s _ => some s
  | .postQuery q => some q.symbol
  | _ => none

/-- The dashboard states reachable from the initial render through user
interactions. -/
inductive Reachable : DashboardState → Prop where
  | init : Reachable initialDashboard
  | step (st : DashboardState) (e : DashboardEvent) :
      Reachable st → Reachable (dashboardStep st e)

theorem reachable_queryParams_symbol (st : DashboardState) (h : Reachable st) :
    ∀ q, st.queryParams = some q → q.symbol ≠ "" := by
  induction h with
  | init => intro q hq; simp [initialDashboard] at hq
  | step st e _ ih =>
    intro q hq
    cases e with
    | selectSymbol s => simp [dashboardStep] at hq
    | submitQueryForm q0 =>
      by_cases htruthy : truthy q0.symbol = true
      · rw [show dashboardStep st (.submitQueryForm q0) = { st with queryParams := some q0 }
          from by simp [dashboardStep, queryFormHandleSubmit, htruthy]] at hq
        simp only at hq
        obtain rfl : q0 = q := by simpa using hq
        simpa [truthy] using htruthy
      · rw [show dashboardStep st (.submitQueryForm q0) = st
          from by simp [dashboardStep, queryFormHandleSubmit, htruthy]] at hq
        exact ih q hq

/-! ## Claim theorems -/

/-- C2: the set of interval tokens the system accepts is exactly the eleven
case-sensitive strings `1s,5s,10s,30s,1m,5m,15m,30m,1h,4h,1d` (also the exact
option list of the frontend `QueryForm` dropdown); for every token in the
vocabulary `resolve` returns a positive duration, and for every other string
(including the empty string) it fails with `InvalidInterval` naming the
offending token. -/
theorem claim_interval_vocabulary :
    (∀ t ∈ intervalVocabulary, ∃ d : Int, 0 < d ∧ resolve t = .ok d) ∧
    (∀ s : String, s ∉ intervalVocabulary → resolve s = .error (.invalidInterval s)) ∧
    queryFormIntervalValues = intervalVocabulary :=
  ⟨fun t ht => resolve_mem_vocabulary t ht,
   fun s hs => resolve_not_mem_vocabulary s hs, rfl⟩

/-- Witness for C2: `"5m"` resolves to a positive duration; `"2h"` and the
empty string fail with `InvalidInterval` naming the token. -/
theorem claim_interval_vocabulary_witness :
    (∃ d : Int, 0 < d ∧ resolve "5m" = .ok d) ∧
    resolve "2h" = .error (.invalidInterval "2h") ∧
    resolve "" = .error (.invalidInterval "") :=
  ⟨claim_interval_vocabulary.1 "5m" (by decide),
   claim_interval_vocabulary.2.1 "2h" (by decide),
   claim_interval_vocabulary.2.1 "" (by decide)⟩

/-- C3: for every query in which both time bounds are omitted (and whose
interval token resolves), the effective window is exactly the last 7 days
ending at call time: `end` defaults to `now`, `start` to `end - 7 days`. -/
theorem claim_default_window (symbol tok : String) (now d : Int)
    (h : resolve tok = .ok d) :
    plan symbol none none tok now =
      .ok { symbol := symbol, start := now - defaultLookbackSeconds, stop := now,
            bucketDuration := d } ∧
    defaultLookbackSeconds = 7 * 86400 := by
  constructor
  · simp only [plan, h, Option.getD_none]
    rw [if_neg (by unfold defaultLookbackSeconds; omega)]
  · rfl

/-- Witness for C3: planning with no bounds at `now = 0` and interval `"1h"`
yields the window `[-604800, 0]`, i.e. the last 7 days. -/
theorem claim_default_window_witness :
    plan "AAPL" none none "1h" 0 =
      .ok { symbol := "AAPL", start := -604800, stop := 0, bucketDuration := 3600 } ∧
    defaultLookbackSeconds = 7 * 86400 := by
  have h := claim_default_window "AAPL" "1h" 0 3600 (by decide)
  refine ⟨?_, h.2⟩
  rw [h.1]
  decide

/-- C5 (amended): for every pair of supplied bounds with `start > end`, `plan`
fails — with `InvalidTimeRange` whenever the interval token resolves, while an
unresolvable token takes precedence and fails with `InvalidInterval` — and
`plan` never produces a descriptor whose window has `start > stop`. -/
theorem claim_invalid_time_range (symbol tok : String) (s e now : Int) :
    ((∃ d, resolve tok = .ok d) → s > e →
      plan symbol (some s) (some e) tok now = .error .invalidTimeRange) ∧
    (∀ startOpt endOpt : Option Int, ∀ desc : QueryDescriptor,
      plan symbol startOpt endOpt tok now = .ok desc → desc.start ≤ desc.stop) := by
  constructor
  · rintro ⟨d, hd⟩ hse
    simp only [plan, hd, Option.getD_some]
    rw [if_pos hse]
  · intro startOpt endOpt desc hdesc
    unfold plan at hdesc
    cases hres : resolve tok with
    | error err =>
      rw [hres] at hdesc
      exact absurd hdesc (by simp)
    | ok bucket =>
      rw [hres] at hdesc
      dsimp only at hdesc
      split at hdesc
      · exact absurd hdesc (by simp)
      · rename_i hcond
        cases hdesc
        exact not_lt.mp hcond

/-- Counterexample for C5 as stated: with supplied bounds `1 > 0` but the
unknown interval token `"2h"`, `plan` fails with `InvalidInterval`, not
`InvalidTimeRange`. -/
theorem claim_invalid_time_range_counterexample :
    (1 : Int) > 0 ∧
    plan "AAPL" (some 1) (some 0) "2h" 0 = .error (.invalidInterval "2h") ∧
    plan "AAPL" (some 1) (some 0) "2h" 0 ≠ .error .invalidTimeRange := by
  refine ⟨by norm_num, by decide, by decide⟩

/-- Witness for C5 (amended): with the valid token `"1h"` and bounds `1 > 0`,
`plan` fails with `InvalidTimeRange`; and a planned descriptor has
`start ≤ stop`. -/
theorem claim_invalid_time_range_witness :
    plan "AAPL" (some 1) (some 0) "1h" 0 = .error .invalidTimeRange ∧
    ({ symbol := "AAPL", start := 0, stop := 5, bucketDuration := 60 } :
      QueryDescriptor).start ≤
      ({ symbol := "AAPL", start := 0, stop := 5, bucketDuration := 60 } :
        QueryDescriptor).stop :=
  ⟨(claim_invalid_time_range "AAPL" "1h" 1 0 0).1 ⟨3600, by decide⟩ (by norm_num),
   (claim_invalid_time_range "AAPL" "1m" 1 0 0).2 (some 0) (some 5)
     { symbol := "AAPL", start := 0, stop := 5, bucketDuration := 60 } (by decide)⟩

/-- C4 (amended): for every observation with `price ≤ 0`, `volume < 0` or an
unparsable timestamp, `validate` fails with `InvalidObservation` (purely — no
write is modelled, the function only inspects its argument); for every
observation satisfying the three invariants *whose symbol does not trim to the
empty string*, `validate` succeeds and returns the normalized copy with the
symbol trimmed and uppercased and the timestamp normalized to UTC. -/
theorem claim_validate (o : Observation) :
    (o.price ≤ 0 ∨ o.volume < 0 ∨ parseInstant o.timestamp = none →
      ∃ msg, validate o = .error (.invalidObservation msg)) ∧
    (0 < o.price → 0 ≤ o.volume → normalizeSymbol o.symbol ≠ "" →
      ∀ t, parseInstant o.timestamp = some t →
        validate o = .ok { symbol := normalizeSymbol o.symbol, price := o.price,
                           volume := o.volume, timestamp := t }) := by
  constructor
  · intro hbad
    unfold validate
    by_cases hsym : normalizeSymbol o.symbol = ""
    · rw [if_pos hsym]
      exact ⟨_, rfl⟩
    · rw [if_neg hsym]
      by_cases hp : o.price ≤ 0
      · rw [if_pos hp]
        exact ⟨_, rfl⟩
      · rw [if_neg hp]
        by_cases hv : o.volume < 0
        · rw [if_pos hv]
          exact ⟨_, rfl⟩
        · rw [if_neg hv]
          have hts : parseInstant o.timestamp = none := by
            rcases hbad with hb | hb | hb
            · exact absurd hb hp
            · exact absurd hb hv
            · exact hb
          rw [hts]
          exact ⟨_, rfl⟩
  · intro hp hv hsym t ht
    unfold validate
    rw [if_neg hsym, if_neg (not_le.mpr hp), if_neg (not_lt.mpr hv), ht]

/-- Counterexample for C4 as stated: the observation
`{symbol := " ", price := 1, volume := 0, timestamp := "2023-12-01T10:00:00Z"}`
satisfies all three invariants of the claim (`price > 0`, `volume ≥ 0`,
parsable timestamp), yet `validate` rejects it, because the spec's §4.2 also
requires a non-empty (after trimming) symbol. -/
theorem claim_validate_counterexample :
    (0 : Rat) < 1 ∧ (0 : Int) ≤ 0 ∧
    parseInstant "2023-12-01T10:00:00Z" = some 1701424800 ∧
    validate { symbol := " ", price := 1, volume := 0,
               timestamp := "2023-12-01T10:00:00Z" } =
      .error (.invalidObservation "symbol must be a non-empty string") := by
  refine ⟨by norm_num, le_refl 0, by decide, by decide⟩

/-- Witness for C4 (amended): a well-formed observation is normalized (symbol
`" aapl "` becomes `"AAPL"`, the timestamp becomes the UTC epoch second), and
a zero-price observation is rejected. -/
theorem claim_validate_witness :
    validate { symbol := " aapl ", price := 150, volume := 1000,
               timestamp := "2023-12-01T10:00:00Z" } =
      .ok { symbol := "AAPL", price := 150, volume := 1000, timestamp := 1701424800 } ∧
    ∃ msg, validate { symbol := "AAPL", price := 0, volume := 0,
                      timestamp := "2023-12-01T10:00:00Z" } =
      .error (.invalidObservation msg) := by
  constructor
  · have h := (claim_validate { symbol := " aapl ", price := 150, volume := 1000,
                                timestamp := "2023-12-01T10:00:00Z" }).2
      (by norm_num) (by norm_num) (by decide) 1701424800 (by decide)
    rw [h]
    decide
  · exact (claim_validate _).1 (Or.inl (by norm_num))

/-- C1: for every descriptor and store content, the store's query returns
exactly one point per bucket — the point timestamps are duplicate-free, and a
bucket has a point iff some selected observation falls in it (empty buckets
are omitted) — and each point carries the sum of the volumes in its bucket
and the price of a last (maximal-timestamp) observation of its bucket. -/
theorem claim_bucket_aggregation (desc : QueryDescriptor) (rows : List NormalizedObservation) :
    ((queryStore desc rows).map SeriesPoint.timestamp).Nodup ∧
    (∀ b : Int, b ∈ (queryStore desc rows).map SeriesPoint.timestamp ↔
      ∃ o, o ∈ windowRows desc rows ∧ bucketStart desc.bucketDuration o.timestamp = b) ∧
    (∀ p ∈ queryStore desc rows,
      p.volume = ((bucketRows desc rows p.timestamp).map NormalizedObservation.volume).sum ∧
      ∃ o, o ∈ bucketRows desc rows p.timestamp ∧
        p.price = o.price ∧
        ∀ q ∈ bucketRows desc rows p.timestamp, q.timestamp ≤ o.timestamp) := by
  refine ⟨?_, ?_, ?_⟩
  · rw [queryStore_timestamps]
    exact List.nodup_dedup _
  · intro b
    rw [queryStore_timestamps, List.mem_dedup]
    exact List.mem_map
  · intro p hp
    simp only [queryStore] at hp
    obtain ⟨b, hb, rfl⟩ := List.mem_map.mp hp
    rw [List.mem_dedup] at hb
    obtain ⟨o0, ho0, hbo⟩ := List.mem_map.mp hb
    have ho0b : o0 ∈ bucketRows desc rows b := by
      unfold bucketRows
      rw [List.mem_filter]
      exact ⟨ho0, by simp [hbo]⟩
    refine ⟨rfl, ?_⟩
    rw [show (bucketPoint b (bucketRows desc rows b)).timestamp = b from rfl]
    rcases hlist : bucketRows desc rows b with _ | ⟨x, xs⟩
    · rw [hlist] at ho0b
      exact absurd ho0b (List.not_mem_nil o0)
    · exact ⟨lastObservation x xs, lastObservation_mem xs x, rfl,
        fun q hq => le_lastObservation xs x q hq⟩

/-- Witness for C1, the spec's own example: observations
`{AAPL,100,10,t}` and `{AAPL,102,20,t+2s}` queried over one 5-minute bucket
produce the single point with price 102 (last) and volume 30 (sum). -/
theorem claim_bucket_aggregation_witness :
    ({ timestamp := 0, price := 102, volume := 30 } : SeriesPoint) ∈
      queryStore { symbol := "AAPL", start := 0, stop := 300, bucketDuration := 300 }
        [{ symbol := "AAPL", price := 100, volume := 10, timestamp := 0 },
         { symbol := "AAPL", price := 102, volume := 20, timestamp := 2 }] ∧
    ({ timestamp := 0, price := 102, volume := 30 } : SeriesPoint).volume =
      ((bucketRows { symbol := "AAPL", start := 0, stop := 300, bucketDuration := 300 }
          [{ symbol := "AAPL", price := 100, volume := 10, timestamp := 0 },
           { symbol := "AAPL", price := 102, volume := 20, timestamp := 2 }] 0).map
        NormalizedObservation.volume).sum :=
  ⟨by decide,
   ((claim_bucket_aggregation
      { symbol := "AAPL", start := 0, stop := 300, bucketDuration := 300 }
      [{ symbol := "AAPL", price := 100, volume := 10, timestamp := 0 },
       { symbol := "AAPL", price := 102, volume := 20, timestamp := 2 }]).2.2
     { timestamp := 0, price := 102, volume := 30 } (by decide)).1⟩

/-- C6: for every descriptor and list of raw store rows (any order, possibly
with duplicate timestamps), `assemble` returns points with strictly
increasing timestamps (hence at most one point per timestamp), whose
timestamps are exactly those of the input, each point carrying the summed
volume of all input rows sharing its timestamp and the price of the last
colliding row in sorted order; `totalPoints` is the point count. -/
theorem claim_assemble (desc : QueryDescriptor) (rawRows : List SeriesPoint) :
    (assemble desc rawRows).points.Pairwise (fun a b => a.timestamp < b.timestamp) ∧
    ((assemble desc rawRows).points.map SeriesPoint.timestamp).Nodup ∧
    (∀ t : Int, t ∈ (assemble desc rawRows).points.map SeriesPoint.timestamp ↔
      t ∈ rawRows.map SeriesPoint.timestamp) ∧
    (∀ p ∈ (assemble desc rawRows).points,
      p.volume = ((rawRows.filter (fun x => decide (x.timestamp = p.timestamp))).map
        SeriesPoint.volume).sum ∧
      ∃ w, ((List.insertionSort pointLE rawRows).filter
          (fun x => decide (x.timestamp = p.timestamp))).getLast? = some w ∧
        p.price = w.price) ∧
    (assemble desc rawRows).totalPoints = (assemble desc rawRows).points.length := by
  have hsorted : List.Sorted pointLE (List.insertionSort pointLE rawRows) :=
    List.sorted_insertionSort pointLE rawRows
  have hperm : List.Perm (List.insertionSort pointLE rawRows) rawRows :=
    List.perm_insertionSort pointLE rawRows
  have hpts : (assemble desc rawRows).points =
      collapse (List.insertionSort pointLE rawRows) := rfl
  have hpair : (assemble desc rawRows).points.Pairwise
      (fun a b => a.timestamp < b.timestamp) := by
    rw [hpts]
    exact collapse_pairwise_lt _ hsorted
  refine ⟨hpair, ?_, ?_, ?_, rfl⟩
  · exact List.Pairwise.map _ (fun a b hab => ne_of_lt hab) hpair
  · intro t
    rw [hpts, mem_timestamp_collapse]
    exact (hperm.map SeriesPoint.timestamp).mem_iff
  · intro p hp
    rw [hpts] at hp
    obtain ⟨hvol, w, hw, hprice⟩ := collapse_groups _ hsorted p hp
    refine ⟨?_, w, hw, hprice⟩
    rw [hvol]
    exact ((hperm.filter _).map SeriesPoint.volume).sum_eq

/-- Witness for C6: raw rows `[(t=5,p=1,v=2), (t=5,p=3,v=4), (t=1,p=9,v=1)]`
assemble to `[(1,9,1), (5,3,6)]`; applying the theorem at the collapsed point
`(5,3,6)` confirms its volume is the sum over the two colliding rows. -/
theorem claim_assemble_witness :
    ({ timestamp := 5, price := 3, volume := 6 } : SeriesPoint) ∈
      (assemble { symbol := "AAPL", start := 0, stop := 10, bucketDuration := 60 }
        [{ timestamp := 5, price := 1, volume := 2 },
         { timestamp := 5, price := 3, volume := 4 },
         { timestamp := 1, price := 9, volume := 1 }]).points ∧
    ({ timestamp := 5, price := 3, volume := 6 } : SeriesPoint).volume =
      (([({ timestamp := 5, price := 1, volume := 2 } : SeriesPoint),
          { timestamp := 5, price := 3, volume := 4 },
          { timestamp := 1, price := 9, volume := 1 }].filter
            (fun x => decide (x.timestamp = (5 : Int)))).map SeriesPoint.volume).sum :=
  ⟨by decide,
   ((claim_assemble { symbol := "AAPL", start := 0, stop := 10, bucketDuration := 60 }
      [{ timestamp := 5, price := 1, volume := 2 },
       { timestamp := 5, price := 3, volume := 4 },
       { timestamp := 1, price := 9, volume := 1 }]).2.2.2.1
     { timestamp := 5, price := 3, volume := 6 } (by decide)).1⟩

/-- C7: the health check is a total function into a structured report — for
every store state, including one where every store call raises, it returns
`status` equal to `"healthy"` or `"unhealthy"`, with `status = "healthy"` iff
the store ping succeeds, `database_connected` mirroring the ping, and a
best-effort `available_symbols_count`; a raising ping yields the structured
unhealthy report instead of a propagated exception. -/
theorem claim_health_check (st : StoreState) :
    ((check st).status = "healthy" ∨ (check st).status = "unhealthy") ∧
    ((check st).status = "healthy" ↔ st.pingResult = .ok true) ∧
    (check st).database_connected = pingOk st ∧
    (check st).available_symbols_count = symbolCount st ∧
    (∀ msg, st.pingResult = .storeError msg →
      check st = { status := "unhealthy", database_connected := false,
                   available_symbols_count := symbolCount st }) := by
  obtain ⟨ping, syms⟩ := st
  cases ping with
  | ok b =>
    cases b with
    | false => exact ⟨Or.inr rfl, by simp [check, pingOk], rfl, rfl, fun msg h => by simp at h⟩
    | true => exact ⟨Or.inl rfl, by simp [check, pingOk], rfl, rfl, fun msg h => by simp at h⟩
  | storeError m =>
    exact ⟨Or.inr rfl, by simp [check, pingOk], rfl, rfl, fun msg h => rfl⟩

/-- Witness for C7: against an unreachable store (both calls raise) the
health check returns the structured unhealthy report with count `-1`; against
a live store it reports healthy. -/
theorem claim_health_check_witness :
    check { pingResult := .storeError "connection refused",
            symbolsResult := .storeError "connection refused" } =
      { status := "unhealthy", database_connected := false,
        available_symbols_count := -1 } ∧
    (check { pingResult := .ok true, symbolsResult := .ok ["AAPL", "MSFT"] }).status =
      "healthy" := by
  constructor
  · have h := (claim_health_check
      { pingResult := .storeError "connection refused",
        symbolsResult := .storeError "connection refused" }).2.2.2.2
      "connection refused" rfl
    rw [h]
    rfl
  · exact (claim_health_check
      { pingResult := .ok true, symbolsResult := .ok ["AAPL", "MSFT"] }).2.1.mpr rfl

/-- C8: `latest` returns at most `limit` points — exactly `min limit total` —
and they are the most recent ones: a suffix of the time-ascending rows of the
symbol, every returned point at least as recent as every omitted one; and the
client's omitted `limit` parameter defaults to 100. -/
theorem claim_latest_limit (store : List NormalizedObservation) (symbol : String)
    (limit : Nat) :
    (latest store symbol limit).length ≤ limit ∧
    (latest store symbol limit).length = min limit (latestPool store symbol).length ∧
    (latest store symbol limit) <:+ (latestPool store symbol) ∧
    (∀ a ∈ (latestPool store symbol).take ((latestPool store symbol).length - limit),
      ∀ b ∈ latest store symbol limit, a.timestamp ≤ b.timestamp) ∧
    (∀ (α : Type) (transport : ApiRequest → TransportOutcome α),
      getLatestData symbol none transport =
        handleApiCall (transport (.getLatest symbol 100))) := by
  refine ⟨?_, ?_, List.drop_suffix _ _, ?_, fun α transport => rfl⟩
  · unfold latest
    rw [List.length_drop]
    omega
  · unfold latest
    rw [List.length_drop]
    omega
  · intro a ha b hb
    have hsorted : List.Sorted obsLE (latestPool store symbol) :=
      List.sorted_insertionSort _ _
    have hsplit := List.take_append_drop
      ((latestPool store symbol).length - limit) (latestPool store symbol)
    rw [← hsplit] at hsorted
    exact (List.pairwise_append.mp hsorted).2.2 a ha b hb

/-- Witness for C8: a store with observations at t=5 and t=1 queried with
limit 1 keeps one point, and the omitted point (t=1) is no more recent than
the kept one (t=5). -/
theorem claim_latest_limit_witness :
    (latest [{ symbol := "AAPL", price := 1, volume := 1, timestamp := 5 },
             { symbol := "AAPL", price := 2, volume := 2, timestamp := 1 }]
      "AAPL" 1).length ≤ 1 ∧
    ({ symbol := "AAPL", price := 2, volume := 2, timestamp := 1 } :
        NormalizedObservation).timestamp ≤
      ({ symbol := "AAPL", price := 1, volume := 1, timestamp := 5 } :
        NormalizedObservation).timestamp :=
  ⟨(claim_latest_limit
      [{ symbol := "AAPL", price := 1, volume := 1, timestamp := 5 },
       { symbol := "AAPL", price := 2, volume := 2, timestamp := 1 }] "AAPL" 1).1,
   (claim_latest_limit
      [{ symbol := "AAPL", price := 1, volume := 1, timestamp := 5 },
       { symbol := "AAPL", price := 2, volume := 2, timestamp := 1 }] "AAPL" 1).2.2.2.1
     { symbol := "AAPL", price := 2, volume := 2, timestamp := 1 } (by decide)
     { symbol := "AAPL", price := 1, volume := 1, timestamp := 5 } (by decide)⟩

/-- C9: every `stockApi` method is total in its result — for every input and
transport outcome it resolves to an `ApiResponse`: on HTTP success the `data`
field is set to the body, and on any thrown or HTTP error the `error` field
is set to the server's `detail` message or the error's `message`. -/
theorem claim_api_totality {α : Type} (transport : ApiRequest → TransportOutcome α)
    (point : StockDataPoint) (batch : StockDataBatch) (query : TimeRangeQuery)
    (symbol : String) (limitOpt : Option Nat) :
    ResolvesTotally transport (.postData point) (storeDataPoint point transport) ∧
    ResolvesTotally transport (.postDataBatch batch) (storeDataBatch batch transport) ∧
    ResolvesTotally transport (.postQuery query) (queryData query transport) ∧
    ResolvesTotally transport (.getLatest symbol (limitOpt.getD 100))
      (getLatestData symbol limitOpt transport) ∧
    ResolvesTotally transport .getSymbols (getSymbols transport) ∧
    ResolvesTotally transport .getHealth (healthCheckApi transport) := by
  have key : ∀ req : ApiRequest,
      ResolvesTotally transport req (handleApiCall (transport req)) := by
    intro req
    constructor
    · intro d hd
      rw [hd]
      rfl
    · intro e he
      rw [he]
      rfl
  exact ⟨key _, key _, key _, key _, key _, key _⟩

/-- Witness for C9: `getSymbols` on a successful transport returns the data;
on a thrown error without a server detail it returns the error's message; on
an HTTP error with a server detail it returns the detail. -/
theorem claim_api_totality_witness :
    getSymbols (fun _ => TransportOutcome.success ["AAPL"]) =
      { data := some ["AAPL"], error := none } ∧
    getSymbols (fun _ => (TransportOutcome.failure
        { detail := none, message := "Network Error" } : TransportOutcome (List String))) =
      { data := none, error := some "Network Error" } ∧
    queryData { symbol := "AAPL", interval := "1m" }
      (fun _ => (TransportOutcome.failure
        { detail := some "Symbol not found", message := "Request failed" } :
          TransportOutcome (List String))) =
      { data := none, error := some "Symbol not found" } :=
  ⟨(claim_api_totality (fun _ => TransportOutcome.success ["AAPL"])
      { symbol := "AAPL", price := 1, volume := 1, timestamp := "t" } ⟨[]⟩
      { symbol := "AAPL", interval := "1m" } "AAPL" none).2.2.2.2.1.1 ["AAPL"] rfl,
   (claim_api_totality (fun _ => (TransportOutcome.failure
        { detail := none, message := "Network Error" } : TransportOutcome (List String)))
      { symbol := "AAPL", price := 1, volume := 1, timestamp := "t" } ⟨[]⟩
      { symbol := "AAPL", interval := "1m" } "AAPL" none).2.2.2.2.1.2
     { detail := none, message := "Network Error" } rfl,
   (claim_api_totality (fun _ => (TransportOutcome.failure
        { detail := some "Symbol not found", message := "Request failed" } :
          TransportOutcome (List String)))
      { symbol := "AAPL", price := 1, volume := 1, timestamp := "t" } ⟨[]⟩
      { symbol := "AAPL", interval := "1m" } "AAPL" none).2.2.1.2
     { detail := some "Symbol not found", message := "Request failed" } rfl⟩

/-- C10: the frontend never issues a latest-data or time-range request with an
empty symbol — the hooks are enabled exactly when the symbol is non-empty,
`QueryForm` suppresses submissions without a selected symbol, every query ever
stored in a reachable dashboard state has a non-empty symbol, and consequently
every request a reachable dashboard state issues carries a non-empty
symbol. -/
theorem claim_no_empty_symbol (st : DashboardState) (h : Reachable st) :
    (∀ s : String, useLatestDataEnabled s = true ↔ s ≠ "") ∧
    (∀ q : TimeRangeQuery, useTimeRangeDataEnabled q = true ↔ q.symbol ≠ "") ∧
    (∀ q : TimeRangeQuery, q.symbol = "" → queryFormHandleSubmit q = none) ∧
    (∀ q : TimeRangeQuery, st.queryParams = some q → q.symbol ≠ "") ∧
    (∀ r ∈ issuedRequests st, ∀ s, requestSymbol r = some s → s ≠ "") := by
  refine ⟨?_, ?_, ?_, reachable_queryParams_symbol st h, ?_⟩
  · intro s
    simp [useLatestDataEnabled, truthy]
  · intro q
    simp [useTimeRangeDataEnabled, truthy]
  · intro q hq
    simp [queryFormHandleSubmit, truthy, hq]
  · intro r hr s hs
    unfold issuedRequests at hr
    rw [List.mem_append] at hr
    rcases hr with hr | hr
    · by_cases hen : useLatestDataEnabled st.selectedSymbol = true
      · rw [if_pos hen] at hr
        obtain rfl : r = ApiRequest.getLatest st.selectedSymbol 100 := by simpa using hr
        obtain rfl : st.selectedSymbol = s := by
          simpa [requestSymbol] using hs
        simpa [useLatestDataEnabled, truthy] using hen
      · rw [if_neg hen] at hr
        simp at hr
    · by_cases hen : useTimeRangeDataEnabled (effectiveTimeRangeQuery st) = true
      · rw [if_pos hen] at hr
        obtain rfl : r = ApiRequest.postQuery (effectiveTimeRangeQuery st) := by
          simpa using hr
        obtain rfl : (effectiveTimeRangeQuery st).symbol = s := by
          simpa [requestSymbol] using hs
        simpa [useTimeRangeDataEnabled, truthy] using hen
      · rw [if_neg hen] at hr
        simp at hr

/-- Witness for C10: in the reachable state after selecting `"AAPL"`, the
issued latest-data request carries the non-empty symbol `"AAPL"`. -/
theorem claim_no_empty_symbol_witness :
    (useLatestDataEnabled "AAPL" = true ↔ "AAPL" ≠ "") ∧ "AAPL" ≠ "" := by
  have hreach : Reachable (dashboardStep initialDashboard (.selectSymbol "AAPL")) :=
    Reachable.step _ _ Reachable.init
  have h := claim_no_empty_symbol _ hreach
  exact ⟨h.1 "AAPL",
    h.2.2.2.2 (ApiRequest.getLatest "AAPL" 100) (by decide) "AAPL" rfl⟩

end Timeseries
